import Mathlib

/-!
Shallow embedding of the gox toolkit (HTTP server bootstrapper, JSON
request/response helpers, health probe endpoints) and proofs about it.

The Go sources embedded here are the `rest` package (config options,
RunHttpServer's construction phase, WriteJSON/WriteError/ReadJSON,
RequestLogger, default middleware/CORS chain) and the `probe` package
(probe registration and the /ready and /alive handlers).  Machine
integers do not overflow in any embedded code path, so numbers are
modelled as Nat/Int.  Go's `encoding/json` library, which WriteJSON and
ReadJSON delegate to, is modelled by an executable JSON value type with
an encoder and a fuel-indexed recursive-descent parser (integers stand
for JSON numbers; string escaping covers the quote and backslash
escapes the encoder emits).
-/

/-! ## JSON value model (for Go's encoding/json as used by WriteJSON/ReadJSON) -/

inductive JVal where
  | jnull : JVal
  | jbool (b : Bool) : JVal
  | jnum (n : Int) : JVal
  | jstr (s : String) : JVal
  | jarr (elems : List JVal) : JVal
  | jobj (members : List (String × JVal)) : JVal

/-- Decimal digit characters of a natural number, most significant first,
as Go's encoder prints integers. -/
def natChars (n : Nat) : List Char :=
  if n = 0 then ['0'] else ((Nat.digits 10 n).reverse.map Nat.digitChar)

/-- Decimal rendering of an integer, Go style (optional leading minus). -/
def intChars (n : Int) : List Char :=
  if n < 0 then '-' :: natChars n.natAbs else natChars n.natAbs

/-- JSON string escaping for one character: the encoder escapes the
double quote and the backslash; other characters are emitted verbatim. -/
def escapeChar (c : Char) : List Char :=
  if c = '"' then ['\\', '"'] else if c = '\\' then ['\\', '\\'] else [c]

def escChars : List Char → List Char
  | [] => []
  | c :: cs => escapeChar c ++ escChars cs

mutual
/-- Compact JSON serialization, as Go's encoder produces for
structurally compatible targets (struct field order preserved). -/
def encChars : JVal → List Char
  | .jnull => ['n', 'u', 'l', 'l']
  | .jbool true => ['t', 'r', 'u', 'e']
  | .jbool false => ['f', 'a', 'l', 's', 'e']
  | .jnum n => intChars n
  | .jstr s => '"' :: (escChars s.data ++ ['"'])
  | .jarr l => '[' :: (encElems l ++ [']'])
  | .jobj l => '\x7b' :: (encMembers l ++ ['\x7d'])

def encElems : List JVal → List Char
  | [] => []
  | v :: l => encChars v ++ (if l.isEmpty then [] else ',' :: encElems l)

def encMembers : List (String × JVal) → List Char
  | [] => []
  | (k, v) :: l =>
      ('"' :: (escChars k.data ++ ('"' :: (':' :: encChars v))))
        ++ (if l.isEmpty then [] else ',' :: encMembers l)
end

def jsonEncode (v : JVal) : String := String.mk (encChars v)

/-- Unescaping of a character following a backslash in a JSON string. -/
def unescapeChar (c : Char) : Char :=
  if c = 'n' then '\n' else if c = 't' then '\t' else if c = 'r' then '\r' else c

/-- Parse the remainder of a JSON string after the opening quote;
returns the decoded characters and the input following the closing quote. -/
def parseStringRest : List Char → Option (List Char × List Char)
  | [] => none
  | c :: r =>
    if c = '"' then some ([], r)
    else if c = '\\' then
      match r with
      | [] => none
      | e :: r2 =>
        match parseStringRest r2 with
        | none => none
        | some (cs, rest) => some (unescapeChar e :: cs, rest)
    else
      match parseStringRest r with
      | none => none
      | some (cs, rest) => some (c :: cs, rest)

def digitVal (c : Char) : Nat := c.toNat - 48

/-- Parse a maximal leading run of decimal digits. -/
def parseNat (s : List Char) : Option (Nat × List Char) :=
  let ds := s.takeWhile Char.isDigit
  if ds.isEmpty then none
  else some (ds.foldl (fun a c => 10 * a + digitVal c) 0, s.dropWhile Char.isDigit)

def parseNumber (s : List Char) : Option (JVal × List Char) :=
  if s.head? = some '-' then
    match parseNat s.tail with
    | none => none
    | some (n, r) => some (.jnum (-(n : Int)), r)
  else
    match parseNat s with
    | none => none
    | some (n, r) => some (.jnum (n : Int), r)

mutual
/-- Fuel-indexed recursive-descent parser for one JSON value.  The fuel
is a modelling artifact bounding recursion depth; any fuel of at least
`sizeV` of the encoded value suffices. -/
def parseValue : Nat → List Char → Option (JVal × List Char)
  | 0, _ => none
  | fuel + 1, s =>
    match s with
    | [] => none
    | c :: r =>
      if c = 'n' then
        if ['u', 'l', 'l'].isPrefixOf r then some (.jnull, r.drop 3) else none
      else if c = 't' then
        if ['r', 'u', 'e'].isPrefixOf r then some (.jbool true, r.drop 3) else none
      else if c = 'f' then
        if ['a', 'l', 's', 'e'].isPrefixOf r then some (.jbool false, r.drop 4) else none
      else if c = '"' then
        match parseStringRest r with
        | none => none
        | some (cs, rest) => some (.jstr (String.mk cs), rest)
      else if c = '[' then
        match parseElems fuel r with
        | none => none
        | some (l, rest) => some (.jarr l, rest)
      else if c = '\x7b' then
        match parseMembers fuel r with
        | none => none
        | some (l, rest) => some (.jobj l, rest)
      else
        parseNumber (c :: r)

/-- Parse array elements up to and including the closing bracket. -/
def parseElems : Nat → List Char → Option (List JVal × List Char)
  | 0, _ => none
  | fuel + 1, s =>
    if s.head? = some ']' then some ([], s.tail)
    else
      match parseValue fuel s with
      | none => none
      | some (v, r) =>
        if r.head? = some ',' then
          match parseElems fuel r.tail with
          | none => none
          | some (l, rest) => some (v :: l, rest)
        else if r.head? = some ']' then some ([v], r.tail)
        else none

/-- Parse object members up to and including the closing brace. -/
def parseMembers : Nat → List Char → Option (List (String × JVal) × List Char)
  | 0, _ => none
  | fuel + 1, s =>
    if s.head? = some '\x7d' then some ([], s.tail)
    else
      match s with
      | [] => none
      | c :: r =>
        if c = '"' then
          match parseStringRest r with
          | none => none
          | some (ks, r1) =>
            if r1.head? = some ':' then
              match parseValue fuel r1.tail with
              | none => none
              | some (v, r2) =>
                if r2.head? = some ',' then
                  match parseMembers fuel r2.tail with
                  | none => none
                  | some (l, rest) => some ((String.mk ks, v) :: l, rest)
                else if r2.head? = some '\x7d' then some ([(String.mk ks, v)], r2.tail)
                else none
            else none
        else none
end

mutual
/-- Fuel sufficient for `parseValue` to parse the encoding of a value. -/
def sizeV : JVal → Nat
  | .jnull => 1
  | .jbool _ => 1
  | .jnum _ => 1
  | .jstr _ => 1
  | .jarr l => 1 + fuelE l
  | .jobj l => 1 + fuelM l

def fuelE : List JVal → Nat
  | [] => 1
  | v :: l => 1 + sizeV v + (if l.isEmpty then 0 else fuelE l)

def fuelM : List (String × JVal) → Nat
  | [] => 1
  | (_, v) :: l => 1 + sizeV v + (if l.isEmpty then 0 else fuelM l)
end

/-- Whitespace in the sense of Go's JSON decoder (what a trailing
`Decode` call skips before reporting io.EOF). -/
def isWs (c : Char) : Bool := c = ' ' || c = '\t' || c = '\n' || c = '\r'

def noDigitHead : List Char → Bool
  | [] => true
  | c :: _ => !c.isDigit

/-! ## Response writer model (net/http semantics) -/

structure ResponseWriter where
  headers : List (String × String)
  status : Option Nat
  body : String
deriving DecidableEq

def emptyRW : ResponseWriter := { headers := [], status := none, body := "" }

def ResponseWriter.setHeader (w : ResponseWriter) (k v : String) : ResponseWriter :=
  { w with headers := (k, v) :: w.headers }

/-- Go's http.ResponseWriter ignores a second WriteHeader call
(the first status code wins, later calls are superfluous). -/
def ResponseWriter.writeHeader (w : ResponseWriter) (code : Nat) : ResponseWriter :=
  match w.status with
  | some _ => w
  | none => { w with status := some code }

/-- Write appends to the body; if no status was set yet it implies 200. -/
def ResponseWriter.write (w : ResponseWriter) (s : String) : ResponseWriter :=
  { w.writeHeader 200 with body := w.body ++ s }

/-! ## rest package: Message, WriteJSON, WriteError, errCodeFromHttp -/

/-- Message defines a general model for server messages
(JSON field names "code" and "message"). -/
structure Message where
  code : String
  message : String
deriving DecidableEq

def Message.toJson (m : Message) : JVal :=
  .jobj [("code", .jstr m.code), ("message", .jstr m.message)]

/-- WriteJSON sets the content type, writes the status code, then the
encoded body.  Go's json.Encoder appends a newline after the value; the
encoding of the values this repository writes never fails, so the
error-degradation branch of the source is unreachable here. -/
def WriteJSON (w : ResponseWriter) (code : Nat) (v : JVal) : ResponseWriter :=
  ((w.setHeader "Content-Type" "application/json").writeHeader code).write
    (jsonEncode v ++ "\n")

def WriteMessage (w : ResponseWriter) (code : String) (message : String) : ResponseWriter :=
  WriteJSON w 200 (Message.mk code message).toJson

/-- Fixed mapping from HTTP status to wire error code (the source builds
a map literal and falls back to ErrInternalServer on a missing key). -/
def errCodeFromHttp (code : Nat) : String :=
  if code = 400 then "ErrBadRequest"
  else if code = 500 then "ErrInternalServer"
  else if code = 401 then "ErrUnauthorized"
  else if code = 409 then "ErrAlreadyExist"
  else if code = 403 then "ErrForbidden"
  else "ErrInternalServer"

def WriteError (w : ResponseWriter) (code : Nat) (message : String) : ResponseWriter :=
  WriteJSON w code (Message.mk (errCodeFromHttp code) message).toJson

/-! ## ReadJSON error classification -/

/-- Outcomes of the first json.Decoder.Decode call that ReadJSON
classifies.  The source's switch also has a branch for Go's
"json: unknown field" errors, but the decoder ReadJSON builds never
calls DisallowUnknownFields, so Go's decoder silently ignores unknown
fields and that error can never occur: the branch is dead code and an
unknown-field error is not a possible outcome of the first Decode. -/
inductive DecodeError where
  | syntaxError (offset : Int) : DecodeError
  | unexpectedEOF : DecodeError
  | unmarshalTypeError (field : String) (offset : Int) : DecodeError
  | eof : DecodeError
  | tooLarge : DecodeError
  | other (msg : String) : DecodeError
deriving DecidableEq

/-- The message ReadJSON's switch produces for each decode error class.
The default branch returns http.StatusText(500), never the raw error. -/
def classifyDecodeError : DecodeError → String
  | .syntaxError off =>
      "request body contains badly-formed JSON (at position " ++ toString off ++ ")"
  | .unexpectedEOF => "request body contains badly-formed JSON"
  | .unmarshalTypeError f off =>
      "request body contains an invalid value for the \"" ++ f
        ++ "\" field (at position " ++ toString off ++ ")"
  | .eof => "request body must not be empty"
  | .tooLarge => "http: request body too large"
  | .other _ => "Internal Server Error"

/-- ReadJSON over the classified outcome of the first Decode call and
whether the second Decode call (into an empty struct) returned io.EOF. -/
def ReadJSON (firstDecode : Option DecodeError) (secondDecodeIsEOF : Bool) :
    Nat × Option String :=
  match firstDecode with
  | some e => (400, some (classifyDecodeError e))
  | none =>
      if secondDecodeIsEOF then (200, none)
      else (400, some "request body must only contain a single JSON object")

/-- ReadJSON on a concrete body via the JSON codec model: decode one
value, then succeed only if nothing but whitespace remains (Go's second
Decode call reports io.EOF exactly then).  Returns the status, the error
message when any, and the decoded value. -/
def readJSONBody (body : List Char) : (Nat × Option String) × Option JVal :=
  match parseValue (body.length + 1) body with
  | none => ((400, some "request body contains badly-formed JSON"), none)
  | some (v, rest) =>
    if (rest.dropWhile isWs).isEmpty then ((200, none), some v)
    else ((400, some "request body must only contain a single JSON object"), some v)

/-- The body WriteJSON emits for a value (encoder output plus the
newline json.Encoder appends). -/
def writeJSONBody (v : JVal) : List Char := encChars v ++ ['\n']

/-! ## rest package: config, options, RunHttpServer construction phase -/

structure CorsOptions where
  allowedOrigins : List String
  allowedMethods : List String
  allowedHeaders : List String
  exposedHeaders : List String
  allowCredentials : Bool
  maxAge : Nat
deriving DecidableEq

/-- Zero value of cors.Options (initial config field). -/
def zeroCorsOptions : CorsOptions :=
  { allowedOrigins := [], allowedMethods := [], allowedHeaders := []
    exposedHeaders := [], allowCredentials := false, maxAge := 0 }

def DefaultCorsOption : CorsOptions :=
  { allowedOrigins := []
    allowedMethods := ["GET", "POST", "PUT", "PATCH", "DELETE", "OPTIONS"]
    allowedHeaders := ["Accept", "Authorization", "Content-Type", "X-CSRF-Token"]
    exposedHeaders := ["Link"]
    allowCredentials := true
    maxAge := 300 }

/-- A zap logger instance supplied by the caller.  The nop sentinel
RunHttpServer creates internally is modelled by `none` in the config. -/
structure Logger where
  id : Nat
deriving DecidableEq

/-- Identifiers for the middleware values RunHttpServer can attach to
the chi router; `custom` stands for a caller-supplied middleware
function (identified by an id, since Go functions are opaque values). -/
inductive Middleware where
  | timeout (secs : Nat) : Middleware
  | requestID : Middleware
  | realIP : Middleware
  | recoverer : Middleware
  | setHeader (k v : String) : Middleware
  | noCache : Middleware
  | cors (opts : CorsOptions) : Middleware
  | requestLogger (l : Logger) : Middleware
  | custom (id : Nat) : Middleware
deriving DecidableEq

def DefaultMiddlewares : List Middleware :=
  [ .timeout 60, .requestID, .realIP, .recoverer,
    .setHeader "X-Content-Type-Options" "nosniff",
    .setHeader "X-Frame-Options" "deny",
    .noCache ]

def DefaultPort : String := "8080"

structure config where
  port : String
  middlewares : List Middleware
  allowedHosts : List String
  setCors : Bool
  corsOptions : CorsOptions
  logger : Option Logger
deriving DecidableEq

/-- The config RunHttpServer starts from: default port and the internal
nop logger sentinel (modelled as `none`); other fields are Go zero values. -/
def initialConfig : config :=
  { port := DefaultPort, middlewares := [], allowedHosts := []
    setCors := false, corsOptions := zeroCorsOptions, logger := none }

/-- The option values constructible from the five With* constructors.
(The Go type is named Option, a function from *config to error; that
name is taken in Lean.) -/
inductive Opt where
  | withPort (port : String) : Opt
  | withMiddlewares (ms : List Middleware) : Opt
  | withAllowedHosts (hosts : List String) : Opt
  | withCoreOptions (co : CorsOptions) : Opt
  | withZapLogger (l : Logger) : Opt
deriving DecidableEq

/-- Application of one option to the config, as each With* closure
mutates *config and returns an error (always nil in the source). -/
def Opt.apply : Opt → config → Except String config
  | .withPort p, c => .ok { c with port := p }
  | .withMiddlewares ms, c => .ok { c with middlewares := ms }
  | .withAllowedHosts hs, c => .ok { c with allowedHosts := hs }
  | .withCoreOptions co, c => .ok { c with corsOptions := co, setCors := true }
  | .withZapLogger l, c => .ok { c with logger := some l }

/-- RunHttpServer's option-application loop: first failing option would
abort startup via log.Fatalf (modelled as the error result). -/
def applyOptions : List Opt → config → Except String config
  | [], c => .ok c
  | o :: os, c =>
    match o.apply c with
    | .ok c2 => applyOptions os c2
    | .error e => .error e

/-- Total counterpart of one option application (identity on error,
which never occurs); used to state that application runs the whole list. -/
def applyOk (o : Opt) (c : config) : config :=
  match o.apply c with
  | .ok c2 => c2
  | .error _ => c

/-- The middleware chain RunHttpServer attaches to the fresh chi router,
in attachment order: the defaults only when no caller middlewares were
configured, the default CORS handler only when no CORS policy was set,
and the request logger only when a non-sentinel logger was configured.
Note the source never reads cfg.middlewares except for the length
check, and never reads cfg.allowedHosts at all. -/
def routerMiddlewares (cfg : config) : List Middleware :=
  (if cfg.middlewares.length = 0 then DefaultMiddlewares else [])
    ++ (if cfg.setCors then [] else [.cors DefaultCorsOption])
    ++ (match cfg.logger with
        | none => []
        | some l => [.requestLogger l])

/-- Observable result of RunHttpServer's construction phase: the
listen address (net.JoinHostPort "" port), the router middleware chain
the handler-construction callback receives, and whether the
no-logger warning is printed. -/
structure ServerModel where
  addr : String
  middlewares : List Middleware
  warnNoLogger : Bool
deriving DecidableEq

def buildServer (cfg : config) : ServerModel :=
  { addr := ":" ++ cfg.port
    middlewares := routerMiddlewares cfg
    warnNoLogger := cfg.logger.isNone }

/-- RunHttpServer up to the point the http.Server is constructed:
apply the options to the initial config (fatal on the first error),
then build the router and server. -/
def RunHttpServerBuild (options : List Opt) : Except String ServerModel :=
  match applyOptions options initialConfig with
  | .ok cfg => .ok (buildServer cfg)
  | .error e => .error e

/-- Two options are similar when they are equal or are both
WithAllowedHosts calls (with possibly different host lists). -/
inductive OptSim : Opt → Opt → Prop
  | hosts (h1 h2 : List String) : OptSim (.withAllowedHosts h1) (.withAllowedHosts h2)
  | same (o : Opt) : OptSim o o

/-- A config with the allowedHosts field blanked; the construction
phase factors through this projection. -/
def eraseHosts (c : config) : config := { c with allowedHosts := [] }

/-! ## probe package -/

inductive ProbeType where
  | Readiness : ProbeType
  | Aliveness : ProbeType
deriving DecidableEq

/-- A registered probe: its kind and the outcome of its zero-argument
check function (none = success, some e = the failure's error text).
The Go type of the kind is named Type, which Lean reserves. -/
structure Probe where
  probe : ProbeType
  handler : Option String
deriving DecidableEq

def WithProbe (probeType : ProbeType) (handler : Option String) : Probe :=
  { probe := probeType, handler := handler }

/-- Run the checks of the given kind in registration order, fast-failing
on the first failure. -/
def checkProbes : List Probe → ProbeType → Option String
  | [], _ => none
  | c :: rest, t =>
    if c.probe ≠ t then checkProbes rest t
    else
      match c.handler with
      | some e => some e
      | none => checkProbes rest t

/-- The /ready handler registered by probe.New.  After a probe failure
it writes 500 and the error body, and then — the source has no return
statement there — falls through and also executes the success path:
the 200 WriteHeader is superfluous (ignored) but the success body is
appended. -/
def readyHandler (probes : List Probe) (w : ResponseWriter) : ResponseWriter :=
  let w1 :=
    match checkProbes probes .Readiness with
    | some e =>
        (w.writeHeader 500).write ("\x7b\"status\": \"" ++ e ++ "\"\x7d")
    | none => w
  (w1.writeHeader 200).write "\x7b\"status\": \"ready\"\x7d"

/-- The /alive handler registered by probe.New; identical shape over
Aliveness probes with the literal alive body. -/
def aliveHandler (probes : List Probe) (w : ResponseWriter) : ResponseWriter :=
  let w1 :=
    match checkProbes probes .Aliveness with
    | some e =>
        (w.writeHeader 500).write ("\x7b\"status\": \"" ++ e ++ "\"\x7d")
    | none => w
  (w1.writeHeader 200).write "\x7b\"status\": \"alive\"\x7d"

/-! ## RequestLogger middleware -/

inductive LogLevel where
  | info : LogLevel
  | error : LogLevel
deriving DecidableEq

structure LogEntry where
  level : LogLevel
  message : String
  code : Nat
  query : String
deriving DecidableEq

structure ReqCtx where
  method : String
  path : String
  rawQuery : String

/-- Server state threaded through handlers: the response writer plus
the structured log lines emitted so far. -/
structure ServerState where
  writer : ResponseWriter
  logs : List LogEntry

/-- A request handler in the model: latency is real time and is not
modelled, so a handler is a state transformer. -/
def Handler := ReqCtx → ServerState → ServerState

/-- middleware.WrapResponseWriter.Status(): 0 until WriteHeader is called. -/
def wwStatus (w : ResponseWriter) : Nat :=
  match w.status with
  | some c => c
  | none => 0

/-- The request-logging middleware: capture method/path/query, invoke
the wrapped handler on a pass-through status-observing writer, then emit
exactly one log line, at error severity when the final status is at
least 500 and info severity otherwise. -/
def RequestLogger (next : Handler) : Handler := fun r st =>
  let st2 := next r st
  let code := wwStatus st2.writer
  let lvl := if 500 ≤ code then LogLevel.error else LogLevel.info
  { st2 with
      logs := st2.logs ++
        [{ level := lvl
           message := "request handled: " ++ r.method ++ " " ++ r.path
           code := code
           query := r.rawQuery }] }


/-! # Theorems

Shared helper lemmas first, then one theorem per claim of the
specification review (witnesses where a theorem carries hypotheses). -/

theorem apply_ok (o : Opt) (c : config) : o.apply c = .ok (applyOk o c) := by
  cases o <;> rfl

theorem applyOptions_ok (opts : List Opt) (c : config) :
    applyOptions opts c = .ok (opts.foldl (fun cc o => applyOk o cc) c) := by
  induction opts generalizing c with
  | nil => rfl
  | cons o os ih => rw [applyOptions, apply_ok]; exact ih _

theorem checkProbes_eq_findSome (probes : List Probe) (t : ProbeType) :
    checkProbes probes t =
      (probes.filter (fun p => p.probe == t)).findSome? (fun p => p.handler) := by
  induction probes with
  | nil => rfl
  | cons c rest ih =>
    by_cases h : c.probe = t
    · simp [checkProbes, h, List.filter_cons, beq_iff_eq, List.findSome?_cons]
      cases hh : c.handler <;> simp [hh, ih]
    · simp [checkProbes, h, List.filter_cons, beq_iff_eq, ih]

theorem eraseHosts_fields (c1 c2 : config) (h : eraseHosts c1 = eraseHosts c2) :
    c1.port = c2.port ∧ c1.middlewares = c2.middlewares ∧ c1.setCors = c2.setCors ∧
      c1.corsOptions = c2.corsOptions ∧ c1.logger = c2.logger := by
  cases c1; cases c2
  simp_all [eraseHosts]

theorem buildServer_congr (c1 c2 : config) (h : eraseHosts c1 = eraseHosts c2) :
    buildServer c1 = buildServer c2 := by
  obtain ⟨h1, h2, h3, h4, h5⟩ := eraseHosts_fields c1 c2 h
  simp [buildServer, routerMiddlewares, h1, h2, h3, h5]

theorem optSim_apply (o1 o2 : Opt) (c1 c2 : config) (ho : OptSim o1 o2)
    (h : eraseHosts c1 = eraseHosts c2) :
    eraseHosts (applyOk o1 c1) = eraseHosts (applyOk o2 c2) := by
  obtain ⟨h1, h2, h3, h4, h5⟩ := eraseHosts_fields c1 c2 h
  cases ho with
  | hosts a b =>
    cases c1; cases c2
    simp_all [eraseHosts, applyOk, Opt.apply]
  | same =>
    cases o1 <;> (cases c1; cases c2; simp_all [eraseHosts, applyOk, Opt.apply])

theorem optsSim_fold (opts1 opts2 : List Opt) (hf : List.Forall₂ OptSim opts1 opts2) :
    ∀ c1 c2, eraseHosts c1 = eraseHosts c2 →
      eraseHosts (opts1.foldl (fun cc o => applyOk o cc) c1) =
        eraseHosts (opts2.foldl (fun cc o => applyOk o cc) c2) := by
  induction hf with
  | nil => intro c1 c2 h; simpa using h
  | cons ho _ ih =>
    intro c1 c2 h
    simpa using ih _ _ (optSim_apply _ _ _ _ ho h)


theorem digitChar_isDigit : ∀ d, d < 10 → (Nat.digitChar d).isDigit = true := by decide

theorem digitVal_digitChar : ∀ d, d < 10 → digitVal (Nat.digitChar d) = d := by decide

theorem isDigit_ne_minus {c : Char} (h : c.isDigit = true) : c ≠ '-' := by
  intro e; subst e; exact absurd h (by decide)

theorem takeWhile_app (p : Char → Bool) :
    ∀ (l r : List Char), (∀ c ∈ l, p c = true) → (∀ c, r.head? = some c → p c = false) →
      (l ++ r).takeWhile p = l ∧ (l ++ r).dropWhile p = r := by
  intro l
  induction l with
  | nil =>
    intro r _ hr
    cases r with
    | nil => simp
    | cons c r2 => simp [List.takeWhile_cons, List.dropWhile_cons, hr c rfl]
  | cons a l ih =>
    intro r hl hr
    have ha : p a = true := hl a (List.mem_cons_self a l)
    have := ih r (fun c hc => hl c (List.mem_cons_of_mem a hc)) hr
    simp [List.takeWhile_cons, List.dropWhile_cons, ha, this.1, this.2]

theorem foldl_horner (l : List Nat) :
    ∀ acc, l.foldl (fun a d => 10 * a + d) acc =
      acc * 10 ^ l.length + Nat.ofDigits 10 l.reverse := by
  induction l with
  | nil => intro acc; simp [Nat.ofDigits]
  | cons d t ih =>
    intro acc
    rw [List.foldl_cons, ih, List.reverse_cons, Nat.ofDigits_append]
    simp [Nat.ofDigits, pow_succ]
    ring

theorem foldl_digits_val (l : List Nat) (h : ∀ d ∈ l, d < 10) :
    ∀ acc, (l.map Nat.digitChar).foldl (fun a c => 10 * a + digitVal c) acc =
      l.foldl (fun a d => 10 * a + d) acc := by
  induction l with
  | nil => intro acc; rfl
  | cons d t ih =>
    intro acc
    have hd : d < 10 := h d (List.mem_cons_self d t)
    rw [List.map_cons, List.foldl_cons, List.foldl_cons, digitVal_digitChar d hd]
    exact ih (fun x hx => h x (List.mem_cons_of_mem d hx)) _

theorem natChars_all_digits (m : Nat) : ∀ c ∈ natChars m, c.isDigit = true := by
  intro c hc
  rw [natChars] at hc
  split at hc
  · simp at hc; subst hc; decide
  · simp [List.mem_map] at hc
    obtain ⟨d, hd, rfl⟩ := hc
    exact digitChar_isDigit d (Nat.digits_lt_base (by norm_num) hd)

theorem natChars_ne_nil (m : Nat) : natChars m ≠ [] := by
  rw [natChars]
  split
  · simp
  · simp [Nat.digits_ne_nil_iff_ne_zero]
    assumption

theorem natChars_cons (m : Nat) : ∃ c cs, natChars m = c :: cs ∧ c.isDigit = true := by
  cases h : natChars m with
  | nil => exact absurd h (natChars_ne_nil m)
  | cons c cs =>
    refine ⟨c, cs, rfl, natChars_all_digits m c ?_⟩
    rw [h]; exact List.mem_cons_self c cs

theorem natChars_val (m : Nat) :
    (natChars m).foldl (fun a c => 10 * a + digitVal c) 0 = m := by
  rw [natChars]
  split
  · subst m  -- hmm m = 0 case: hypothesis m = 0
    decide
  · rw [foldl_digits_val _ (fun d hd => Nat.digits_lt_base (by norm_num) (List.mem_reverse.mp hd)),
      foldl_horner]
    simp [Nat.ofDigits_digits]

theorem parseNat_natChars (m : Nat) (rest : List Char) (h : noDigitHead rest = true) :
    parseNat (natChars m ++ rest) = some (m, rest) := by
  have hr : ∀ c, rest.head? = some c → Char.isDigit c = false := by
    intro c hc
    cases rest with
    | nil => simp at hc
    | cons a r2 =>
      simp at hc; subst hc
      simpa [noDigitHead] using h
  obtain ⟨ht, hd⟩ := takeWhile_app Char.isDigit (natChars m) rest (natChars_all_digits m) hr
  rw [parseNat]
  simp only [ht, hd]
  rw [if_neg (by simpa [List.isEmpty_iff] using natChars_ne_nil m)]
  rw [natChars_val]

theorem parseNumber_intChars (n : Int) (rest : List Char) (h : noDigitHead rest = true) :
    parseNumber (intChars n ++ rest) = some (.jnum n, rest) := by
  by_cases hn : n < 0
  · rw [intChars, if_pos hn]
    rw [parseNumber]
    simp only [List.cons_append, List.head?_cons, List.tail_cons, if_pos rfl]
    rw [parseNat_natChars _ _ h]
    show some (JVal.jnum (-((n.natAbs : Nat) : Int)), rest) = some (JVal.jnum n, rest)
    have hval : -((n.natAbs : Nat) : Int) = n := by omega
    rw [hval]
  · rw [intChars, if_neg hn]
    obtain ⟨c, cs, hc, hdig⟩ := natChars_cons n.natAbs
    rw [parseNumber]
    rw [hc]
    simp only [List.cons_append, List.head?_cons]
    rw [if_neg (by simp; exact fun e => isDigit_ne_minus hdig e)]
    rw [← List.cons_append, ← hc, parseNat_natChars _ _ h]
    show some (JVal.jnum ((n.natAbs : Nat) : Int), rest) = some (JVal.jnum n, rest)
    have hval : ((n.natAbs : Nat) : Int) = n := by omega
    rw [hval]

theorem isDigit_nums {c : Char} (h : c.isDigit = true) :
    c ≠ 'n' ∧ c ≠ 't' ∧ c ≠ 'f' ∧ c ≠ '"' ∧ c ≠ '[' ∧ c ≠ '\x7b' ∧ c ≠ ']' := by
  refine ⟨?_, ?_, ?_, ?_, ?_, ?_, ?_⟩ <;> (intro e; subst e; exact absurd h (by decide))

theorem parseValue_null (f : Nat) (r : List Char) :
    parseValue (f+1) ('n' :: 'u' :: 'l' :: 'l' :: r) = some (.jnull, r) := by
  rw [parseValue.eq_def]; simp [List.isPrefixOf]

theorem parseValue_true (f : Nat) (r : List Char) :
    parseValue (f+1) ('t' :: 'r' :: 'u' :: 'e' :: r) = some (.jbool true, r) := by
  rw [parseValue.eq_def]; simp [List.isPrefixOf]

theorem parseValue_false (f : Nat) (r : List Char) :
    parseValue (f+1) ('f' :: 'a' :: 'l' :: 's' :: 'e' :: r) = some (.jbool false, r) := by
  rw [parseValue.eq_def]; simp [List.isPrefixOf]

theorem parseValue_quote (f : Nat) (r : List Char) :
    parseValue (f+1) ('"' :: r) =
      match parseStringRest r with
      | none => none
      | some (cs, rest) => some (.jstr (String.mk cs), rest) := by
  rw [parseValue.eq_def]; rfl

theorem parseValue_arr (f : Nat) (r : List Char) :
    parseValue (f+1) ('[' :: r) =
      match parseElems f r with
      | none => none
      | some (l, rest) => some (.jarr l, rest) := by
  rw [parseValue.eq_def]; rfl

theorem parseValue_obj (f : Nat) (r : List Char) :
    parseValue (f+1) ('\x7b' :: r) =
      match parseMembers f r with
      | none => none
      | some (l, rest) => some (.jobj l, rest) := by
  rw [parseValue.eq_def]; rfl

theorem parseValue_other (f : Nat) (c : Char) (r : List Char)
    (h1 : c ≠ 'n') (h2 : c ≠ 't') (h3 : c ≠ 'f') (h4 : c ≠ '"')
    (h5 : c ≠ '[') (h6 : c ≠ '\x7b') :
    parseValue (f+1) (c :: r) = parseNumber (c :: r) := by
  rw [parseValue.eq_def]
  simp [h1, h2, h3, h4, h5, h6]

theorem enc_head (v : JVal) : ∃ c cs, encChars v = c :: cs ∧ c ≠ ']' := by
  cases v with
  | jnull => exact ⟨'n', ['u', 'l', 'l'], by simp [encChars], by decide⟩
  | jbool b =>
    cases b with
    | true => exact ⟨'t', ['r', 'u', 'e'], by simp [encChars], by decide⟩
    | false => exact ⟨'f', ['a', 'l', 's', 'e'], by simp [encChars], by decide⟩
  | jnum n =>
    have he : encChars (.jnum n) = intChars n := by simp [encChars]
    rw [he, intChars]
    by_cases hn : n < 0
    · rw [if_pos hn]
      exact ⟨'-', _, rfl, by decide⟩
    · rw [if_neg hn]
      obtain ⟨c, cs, hc, hd⟩ := natChars_cons n.natAbs
      exact ⟨c, cs, hc, (isDigit_nums hd).2.2.2.2.2.2⟩
  | jstr s => exact ⟨'"', escChars s.data ++ ['"'], by simp [encChars], by decide⟩
  | jarr l => exact ⟨'[', encElems l ++ [']'], by simp [encChars], by decide⟩
  | jobj l => exact ⟨'\x7b', encMembers l ++ ['\x7d'], by simp [encChars], by decide⟩

theorem parseElems_succ (f : Nat) (s : List Char) :
    parseElems (f+1) s =
      if s.head? = some ']' then some ([], s.tail)
      else
        match parseValue f s with
        | none => none
        | some (v, r) =>
          if r.head? = some ',' then
            match parseElems f r.tail with
            | none => none
            | some (l, rest) => some (v :: l, rest)
          else if r.head? = some ']' then some ([v], r.tail)
          else none := by
  rw [parseElems.eq_def]

theorem parseMembers_succ (f : Nat) (s : List Char) :
    parseMembers (f+1) s =
      if s.head? = some '\x7d' then some ([], s.tail)
      else
        match s with
        | [] => none
        | c :: r =>
          if c = '"' then
            match parseStringRest r with
            | none => none
            | some (ks, r1) =>
              if r1.head? = some ':' then
                match parseValue f r1.tail with
                | none => none
                | some (v, r2) =>
                  if r2.head? = some ',' then
                    match parseMembers f r2.tail with
                    | none => none
                    | some (l, rest) => some ((String.mk ks, v) :: l, rest)
                  else if r2.head? = some '\x7d' then some ([(String.mk ks, v)], r2.tail)
                  else none
              else none
          else none := by
  rw [parseMembers.eq_def]

theorem fuelE_pos (l : List JVal) : 1 ≤ fuelE l := by
  cases l with
  | nil => simp [fuelE]
  | cons v l2 => rw [fuelE]; omega

theorem fuelM_pos (l : List (String × JVal)) : 1 ≤ fuelM l := by
  cases l with
  | nil => simp [fuelM]
  | cons kv l2 => cases kv; rw [fuelM]; omega

theorem sizeV_pos (v : JVal) : 1 ≤ sizeV v := by
  cases v <;> simp [sizeV]

theorem fuelE_cons_le {v : JVal} {l : List JVal} {f : Nat} (h : fuelE (v :: l) ≤ f + 1) :
    sizeV v ≤ f ∧ fuelE l ≤ f := by
  cases l with
  | nil =>
    rw [show fuelE [v] = 1 + sizeV v + 0 by simp [fuelE]] at h
    have h1 := sizeV_pos v
    have h2 : fuelE ([] : List JVal) = 1 := by simp [fuelE]
    omega
  | cons w l2 =>
    rw [show fuelE (v :: w :: l2) = 1 + sizeV v + fuelE (w :: l2) by
      rw [fuelE]; simp] at h
    have h1 := sizeV_pos v
    have h2 := fuelE_pos (w :: l2)
    omega

theorem fuelM_cons_le {k : String} {v : JVal} {l : List (String × JVal)} {f : Nat}
    (h : fuelM ((k, v) :: l) ≤ f + 1) : sizeV v ≤ f ∧ fuelM l ≤ f := by
  cases l with
  | nil =>
    rw [show fuelM [(k, v)] = 1 + sizeV v + 0 by simp [fuelM]] at h
    have h1 := sizeV_pos v
    have h2 : fuelM ([] : List (String × JVal)) = 1 := by simp [fuelM]
    omega
  | cons kw l2 =>
    rw [show fuelM ((k, v) :: kw :: l2) = 1 + sizeV v + fuelM (kw :: l2) by
      rw [fuelM]; simp] at h
    have h1 := sizeV_pos v
    have h2 := fuelM_pos (kw :: l2)
    omega

theorem parseStringRest_escape (cs : List Char) :
    ∀ rest, parseStringRest (escChars cs ++ ('"' :: rest)) = some (cs, rest) := by
  induction cs with
  | nil => intro rest; rw [parseStringRest.eq_def]; simp [escChars]
  | cons c cs ih =>
    intro rest
    by_cases h1 : c = '"'
    · subst h1
      rw [show escChars ('"' :: cs) ++ ('"' :: rest) =
            '\\' :: '"' :: (escChars cs ++ ('"' :: rest)) by simp [escChars, escapeChar]]
      rw [parseStringRest.eq_def]
      simp [ih, unescapeChar]
    · by_cases h2 : c = '\\'
      · subst h2
        rw [show escChars ('\\' :: cs) ++ ('"' :: rest) =
              '\\' :: '\\' :: (escChars cs ++ ('"' :: rest)) by simp [escChars, escapeChar]]
        rw [parseStringRest.eq_def]
        simp [ih, unescapeChar]
      · rw [show escChars (c :: cs) ++ ('"' :: rest) =
              c :: (escChars cs ++ ('"' :: rest)) by simp [escChars, escapeChar, h1, h2]]
        rw [parseStringRest.eq_def]
        simp [h1, h2, ih]

theorem string_mk_data (s : String) : String.mk s.data = s := rfl

theorem parse_enc : ∀ fuel : Nat,
    (∀ (v : JVal) (rest : List Char), sizeV v ≤ fuel → noDigitHead rest = true →
      parseValue fuel (encChars v ++ rest) = some (v, rest)) ∧
    (∀ (l : List JVal) (rest : List Char), fuelE l ≤ fuel →
      parseElems fuel (encElems l ++ (']' :: rest)) = some (l, rest)) ∧
    (∀ (l : List (String × JVal)) (rest : List Char), fuelM l ≤ fuel →
      parseMembers fuel (encMembers l ++ ('\x7d' :: rest)) = some (l, rest)) := by
  intro fuel
  induction fuel with
  | zero =>
    refine ⟨?_, ?_, ?_⟩
    · intro v rest hs _
      have := sizeV_pos v; omega
    · intro l rest hs
      have := fuelE_pos l; omega
    · intro l rest hs
      have := fuelM_pos l; omega
  | succ f ih =>
    obtain ⟨ihV, ihE, ihM⟩ := ih
    refine ⟨?_, ?_, ?_⟩
    · -- parseValue on an encoded value
      intro v rest hs hnd
      cases v with
      | jnull =>
        rw [show encChars .jnull ++ rest = 'n' :: 'u' :: 'l' :: 'l' :: rest by
          simp [encChars]]
        exact parseValue_null f rest
      | jbool b =>
        cases b with
        | true =>
          rw [show encChars (.jbool true) ++ rest = 't' :: 'r' :: 'u' :: 'e' :: rest by
            simp [encChars]]
          exact parseValue_true f rest
        | false =>
          rw [show encChars (.jbool false) ++ rest =
              'f' :: 'a' :: 'l' :: 's' :: 'e' :: rest by simp [encChars]]
          exact parseValue_false f rest
      | jnum n =>
        rw [show encChars (.jnum n) = intChars n by simp [encChars]]
        by_cases hn : n < 0
        · rw [show intChars n ++ rest = '-' :: (natChars n.natAbs ++ rest) by
            rw [intChars, if_pos hn]; simp]
          rw [parseValue_other f '-' _ (by decide) (by decide) (by decide) (by decide)
            (by decide) (by decide)]
          rw [show '-' :: (natChars n.natAbs ++ rest) = intChars n ++ rest by
            rw [intChars, if_pos hn]; simp]
          exact parseNumber_intChars n rest hnd
        · obtain ⟨c, cs, hc, hd⟩ := natChars_cons n.natAbs
          obtain ⟨e1, e2, e3, e4, e5, e6, _⟩ := isDigit_nums hd
          rw [show intChars n ++ rest = c :: (cs ++ rest) by
            rw [intChars, if_neg hn, hc]; simp]
          rw [parseValue_other f c _ e1 e2 e3 e4 e5 e6]
          rw [show c :: (cs ++ rest) = intChars n ++ rest by
            rw [intChars, if_neg hn, hc]; simp]
          exact parseNumber_intChars n rest hnd
      | jstr s =>
        rw [show encChars (.jstr s) ++ rest = '"' :: (escChars s.data ++ ('"' :: rest)) by
          simp [encChars]]
        rw [parseValue_quote, parseStringRest_escape]
      | jarr l =>
        rw [show encChars (.jarr l) ++ rest = '[' :: (encElems l ++ (']' :: rest)) by
          simp [encChars]]
        rw [parseValue_arr]
        rw [ihE l rest (by rw [show sizeV (.jarr l) = 1 + fuelE l by simp [sizeV]] at hs; omega)]
      | jobj l =>
        rw [show encChars (.jobj l) ++ rest = '\x7b' :: (encMembers l ++ ('\x7d' :: rest)) by
          simp [encChars]]
        rw [parseValue_obj]
        rw [ihM l rest (by rw [show sizeV (.jobj l) = 1 + fuelM l by simp [sizeV]] at hs; omega)]
    · -- parseElems on encoded elements followed by the closing bracket
      intro l rest hf
      cases l with
      | nil =>
        rw [show encElems [] ++ (']' :: rest) = ']' :: rest by simp [encElems]]
        rw [parseElems_succ]
        simp
      | cons v l2 =>
        obtain ⟨hsv, hfl⟩ := fuelE_cons_le hf
        obtain ⟨c, cs, hc, hne⟩ := enc_head v
        cases l2 with
        | nil =>
          rw [show encElems [v] ++ (']' :: rest) = encChars v ++ (']' :: rest) by
            simp [encElems]]
          rw [parseElems_succ]
          rw [if_neg (by rw [hc]; simp [hne])]
          rw [ihV v (']' :: rest) hsv (by rfl)]
          simp
        | cons w l3 =>
          rw [show encElems (v :: w :: l3) ++ (']' :: rest) =
              encChars v ++ (',' :: (encElems (w :: l3) ++ (']' :: rest))) by
            rw [encElems]; simp]
          rw [parseElems_succ]
          rw [if_neg (by rw [hc]; simp [hne])]
          rw [ihV v _ hsv (by rfl)]
          simp only [List.head?_cons, List.tail_cons, if_pos rfl]
          rw [ihE (w :: l3) rest hfl]
          rfl
    · -- parseMembers on encoded members followed by the closing brace
      intro l rest hf
      cases l with
      | nil =>
        rw [show encMembers [] ++ ('\x7d' :: rest) = '\x7d' :: rest by simp [encMembers]]
        rw [parseMembers_succ]
        simp
      | cons kv l2 =>
        obtain ⟨k, v⟩ := kv
        obtain ⟨hsv, hfl⟩ := fuelM_cons_le hf
        cases l2 with
        | nil =>
          rw [show encMembers [(k, v)] ++ ('\x7d' :: rest) =
              '"' :: (escChars k.data ++ ('"' :: (':' :: (encChars v ++ ('\x7d' :: rest))))) by
            rw [encMembers]; simp]
          rw [parseMembers_succ]
          rw [if_neg (by simp)]
          simp only []
          rw [if_pos trivial]
          rw [parseStringRest_escape]
          simp only [List.head?_cons, List.tail_cons, if_pos rfl]
          rw [ihV v _ hsv (by rfl)]
          simp
        | cons kw l3 =>
          rw [show encMembers ((k, v) :: kw :: l3) ++ ('\x7d' :: rest) =
              '"' :: (escChars k.data ++ ('"' :: (':' :: (encChars v ++
                (',' :: (encMembers (kw :: l3) ++ ('\x7d' :: rest))))))) by
            rw [encMembers]; simp]
          rw [parseMembers_succ]
          rw [if_neg (by simp)]
          simp only []
          rw [if_pos trivial]
          rw [parseStringRest_escape]
          simp only [List.head?_cons, List.tail_cons, if_pos rfl]
          rw [ihV v _ hsv (by rfl)]
          simp only [List.head?_cons, List.tail_cons, if_pos rfl]
          rw [ihM (kw :: l3) rest hfl]
          simp

theorem mem_sizeOf_lt_json {w : JVal} {l : List JVal} (h : w ∈ l) : sizeOf w < sizeOf l := by
  induction l with
  | nil => cases h
  | cons a t ih =>
    cases h with
    | head => simp; omega
    | tail _ h2 => have := ih h2; simp; omega

theorem mem_sizeOf_lt_member {kv : String × JVal} {l : List (String × JVal)} (h : kv ∈ l) :
    sizeOf kv.2 < sizeOf l := by
  induction l with
  | nil => cases h
  | cons a t ih =>
    cases h with
    | head => cases kv; simp; omega
    | tail _ h2 => have := ih h2; simp; omega

theorem intChars_ne_nil (n : Int) : intChars n ≠ [] := by
  rw [intChars]; split
  · simp
  · obtain ⟨c, cs, hc, _⟩ := natChars_cons n.natAbs
    rw [hc]; simp

theorem boundE (l : List JVal) (h : ∀ w ∈ l, sizeV w ≤ (encChars w).length) :
    fuelE l ≤ (encElems l).length + 1 := by
  induction l with
  | nil => simp [fuelE, encElems]
  | cons v l2 ih =>
    have hv := h v (List.mem_cons_self v l2)
    cases l2 with
    | nil =>
      rw [show fuelE [v] = 1 + sizeV v + 0 by simp [fuelE]]
      rw [show encElems [v] = encChars v by simp [encElems]]
      omega
    | cons w l3 =>
      have ih2 := ih (fun x hx => h x (List.mem_cons_of_mem v hx))
      rw [show fuelE (v :: w :: l3) = 1 + sizeV v + fuelE (w :: l3) by rw [fuelE]; simp]
      rw [show encElems (v :: w :: l3) = encChars v ++ (',' :: encElems (w :: l3)) by
        rw [encElems]; simp]
      simp only [List.length_append, List.length_cons]
      omega

theorem boundM (l : List (String × JVal)) (h : ∀ kv ∈ l, sizeV kv.2 ≤ (encChars kv.2).length) :
    fuelM l ≤ (encMembers l).length + 1 := by
  induction l with
  | nil => simp [fuelM, encMembers]
  | cons kv l2 ih =>
    obtain ⟨k, v⟩ := kv
    have hv := h (k, v) (List.mem_cons_self _ l2)
    cases l2 with
    | nil =>
      rw [show fuelM [(k, v)] = 1 + sizeV v + 0 by simp [fuelM]]
      rw [show encMembers [(k, v)] =
          ('"' :: (escChars k.data ++ ('"' :: (':' :: encChars v)))) by simp [encMembers]]
      simp only [List.length_cons, List.length_append]
      simp at hv
      omega
    | cons kw l3 =>
      have ih2 := ih (fun x hx => h x (List.mem_cons_of_mem (k, v) hx))
      rw [show fuelM ((k, v) :: kw :: l3) = 1 + sizeV v + fuelM (kw :: l3) by
        rw [fuelM]; simp]
      rw [show encMembers ((k, v) :: kw :: l3) =
          ('"' :: (escChars k.data ++ ('"' :: (':' :: encChars v)))) ++
            (',' :: encMembers (kw :: l3)) by rw [encMembers]; simp]
      simp only [List.length_append, List.length_cons]
      simp at hv
      omega

theorem sizeV_le_enc_aux : ∀ (n : Nat) (v : JVal), sizeOf v ≤ n → sizeV v ≤ (encChars v).length := by
  intro n
  induction n using Nat.strong_induction_on with
  | _ n ih =>
    intro v hv
    cases v with
    | jnull => simp [sizeV, encChars]
    | jbool b => cases b <;> simp [sizeV, encChars]
    | jnum m =>
      have := List.length_pos.mpr (intChars_ne_nil m)
      rw [show encChars (.jnum m) = intChars m by simp [encChars]]
      rw [show sizeV (.jnum m) = 1 by simp [sizeV]]
      omega
    | jstr s => simp [sizeV, encChars]
    | jarr l =>
      have hsz : sizeOf l < sizeOf (JVal.jarr l) := by simp
      have hmem : ∀ w ∈ l, sizeV w ≤ (encChars w).length := by
        intro w hw
        have h1 : sizeOf w < sizeOf l := mem_sizeOf_lt_json hw
        exact ih (sizeOf w) (by omega) w (le_refl _)
      have hb := boundE l hmem
      rw [show sizeV (.jarr l) = 1 + fuelE l by simp [sizeV]]
      rw [show encChars (.jarr l) = '[' :: (encElems l ++ [']']) by simp [encChars]]
      simp only [List.length_cons, List.length_append, List.length_singleton]
      omega
    | jobj l =>
      have hsz : sizeOf l < sizeOf (JVal.jobj l) := by simp
      have hmem : ∀ kv ∈ l, sizeV kv.2 ≤ (encChars kv.2).length := by
        intro kv hkv
        have h1 : sizeOf kv.2 < sizeOf l := mem_sizeOf_lt_member hkv
        exact ih (sizeOf kv.2) (by omega) kv.2 (le_refl _)
      have hb := boundM l hmem
      rw [show sizeV (.jobj l) = 1 + fuelM l by simp [sizeV]]
      rw [show encChars (.jobj l) = '\x7b' :: (encMembers l ++ ['\x7d']) by simp [encChars]]
      simp only [List.length_cons, List.length_append, List.length_singleton]
      omega

theorem sizeV_le_enc (v : JVal) : sizeV v ≤ (encChars v).length :=
  sizeV_le_enc_aux (sizeOf v) v (le_refl _)

theorem readJSON_roundtrip (v : JVal) :
    readJSONBody (writeJSONBody v) = ((200, none), some v) := by
  have hp := (parse_enc ((encChars v ++ ['\n']).length + 1)).1 v ['\n']
    (by have := sizeV_le_enc v; simp; omega) (by rfl)
  rw [readJSONBody, writeJSONBody]
  rw [hp]
  rfl


/-- C1: the claim says a non-empty WithMiddlewares list replaces the
default chain and is itself applied to every request.  The source only
skips the defaults: the caller-supplied middlewares are stored in the
config but never attached to the router, so the router's chain contains
only the default CORS handler (with the nop logger) and not the custom
middleware.  This theorem evaluates the construction at the failing
input and records that the custom middleware is absent from the chain. -/
theorem C1_custom_middlewares_dropped :
    RunHttpServerBuild [.withMiddlewares [.custom 0]] =
      .ok { addr := ":8080", middlewares := [.cors DefaultCorsOption], warnNoLogger := true } ∧
    Middleware.custom 0 ∉ [Middleware.cors DefaultCorsOption] := ⟨rfl, by decide⟩

/-- C2: the claim says a failing Readiness probe makes /ready return 500
with body exactly the error JSON and nothing else appended.  The source
handler lacks a return after the error write, so the success body is
appended after the error body (the status does stay 500 because the
second WriteHeader is ignored).  This theorem evaluates the handler at
the failing input and records that the body is not exactly the error JSON. -/
theorem C2_probe_error_body_concatenated :
    readyHandler [WithProbe .Readiness (some "boom")] emptyRW =
      { headers := [], status := some 500,
        body := "\x7b\"status\": \"boom\"\x7d\x7b\"status\": \"ready\"\x7d" } ∧
    ("\x7b\"status\": \"boom\"\x7d\x7b\"status\": \"ready\"\x7d" : String) ≠
      "\x7b\"status\": \"boom\"\x7d" := ⟨rfl, by decide⟩

/-- C3: the claim follows the spec in classifying a request body with an
unknown field as HTTP 400 citing the field name.  The source never calls
DisallowUnknownFields on the decoder it builds, so Go's decoder silently
ignores unknown fields and the switch's unknown-field branch is
unreachable: decoding the spec's own test body (an object carrying the
unexpected field "b") succeeds, and ReadJSON returns 200 with no error
instead of the claimed 400 citing the field.  This theorem evaluates the
codec model at that failing input and records the divergence. -/
theorem C3_unknown_field_accepted :
    readJSONBody ("\x7b\"a\":1,\"b\":2\x7d".data) =
      ((200, none), some (.jobj [("a", .jnum 1), ("b", .jnum 2)])) ∧
    (readJSONBody ("\x7b\"a\":1,\"b\":2\x7d".data)).1 ≠
      (400, some "request body contains unknown field \"b\"") :=
  ⟨rfl, by decide⟩

/-- C4: when the first decode succeeds but the body holds trailing
content (the second decode does not return io.EOF), ReadJSON returns 400
with the single-JSON-object message; in particular two concatenated JSON
objects in one body produce exactly that result in the concrete codec
model. -/
theorem C4_readJSON_single_object :
    ReadJSON none false = (400, some "request body must only contain a single JSON object") ∧
    (readJSONBody ("\x7b\x7d\x7b\x7d".data)).1 =
      (400, some "request body must only contain a single JSON object") := ⟨rfl, rfl⟩

/-- C5: WriteError writes a code-and-message JSON body with the given
HTTP status, the code being derived by the fixed mapping 400, 401, 403,
409, 500 to their error codes and every other status to
ErrInternalServer; in particular WriteError 409 "dup" produces status
409 and the ErrAlreadyExist body. -/
theorem C5_writeError_mapping :
    (∀ (code : Nat) (msg : String), WriteError emptyRW code msg =
      { headers := [("Content-Type", "application/json")], status := some code,
        body := jsonEncode (Message.mk (errCodeFromHttp code) msg).toJson ++ "\n" }) ∧
    errCodeFromHttp 400 = "ErrBadRequest" ∧
    errCodeFromHttp 401 = "ErrUnauthorized" ∧
    errCodeFromHttp 403 = "ErrForbidden" ∧
    errCodeFromHttp 409 = "ErrAlreadyExist" ∧
    errCodeFromHttp 500 = "ErrInternalServer" ∧
    (∀ code : Nat, code ∉ ([400, 401, 403, 409, 500] : List Nat) →
      errCodeFromHttp code = "ErrInternalServer") ∧
    (WriteError emptyRW 409 "dup").status = some 409 ∧
    (WriteError emptyRW 409 "dup").body =
      "\x7b\"code\":\"ErrAlreadyExist\",\"message\":\"dup\"\x7d\n" := by
  refine ⟨fun code msg => rfl, rfl, rfl, rfl, rfl, rfl, ?_, rfl, rfl⟩
  intro code h
  have h1 : code ≠ 400 := fun e => h (by simp [e])
  have h2 : code ≠ 401 := fun e => h (by simp [e])
  have h3 : code ≠ 403 := fun e => h (by simp [e])
  have h4 : code ≠ 409 := fun e => h (by simp [e])
  have h5 : code ≠ 500 := fun e => h (by simp [e])
  simp [errCodeFromHttp, h1, h2, h3, h4, h5]

/-- Witness for C5: the catch-all branch of the mapping evaluated at the
concrete status 418. -/
theorem C5_writeError_mapping_witness :
    (418 ∉ ([400, 401, 403, 409, 500] : List Nat)) ∧
      errCodeFromHttp 418 = "ErrInternalServer" :=
  ⟨by decide, C5_writeError_mapping.2.2.2.2.2.2.1 418 (by decide)⟩

/-- C6: the health check runs exactly the probes of the requested kind
in registration order and returns the first failure (checkProbes equals
findSome? over the kind-filtered list); with no probes of a kind the
check succeeds and the endpoint answers 200; and with one failing
Readiness probe and one passing Aliveness probe, /ready answers 500
while /alive answers 200. -/
theorem C6_probe_kind_filtering :
    (∀ (probes : List Probe) (t : ProbeType),
      checkProbes probes t =
        (probes.filter (fun p => p.probe == t)).findSome? (fun p => p.handler)) ∧
    (∀ (probes : List Probe) (t : ProbeType),
      probes.filter (fun p => p.probe == t) = [] → checkProbes probes t = none) ∧
    (∀ probes : List Probe, checkProbes probes .Readiness = none →
      (readyHandler probes emptyRW).status = some 200) ∧
    (∀ probes : List Probe, checkProbes probes .Aliveness = none →
      (aliveHandler probes emptyRW).status = some 200) ∧
    (readyHandler [WithProbe .Readiness (some "down"), WithProbe .Aliveness none]
      emptyRW).status = some 500 ∧
    (aliveHandler [WithProbe .Readiness (some "down"), WithProbe .Aliveness none]
      emptyRW).status = some 200 := by
  refine ⟨checkProbes_eq_findSome, ?_, ?_, ?_, rfl, rfl⟩
  · intro probes t h
    rw [checkProbes_eq_findSome, h]
    rfl
  · intro probes h
    simp [readyHandler, h, ResponseWriter.write, ResponseWriter.writeHeader, emptyRW]
  · intro probes h
    simp [aliveHandler, h, ResponseWriter.write, ResponseWriter.writeHeader, emptyRW]

/-- Witness for C6: the empty probe list satisfies the hypotheses and
both endpoints answer 200. -/
theorem C6_probe_kind_filtering_witness :
    (([] : List Probe).filter (fun p => p.probe == ProbeType.Readiness) = []) ∧
    checkProbes [] ProbeType.Readiness = none ∧
    (readyHandler [] emptyRW).status = some 200 ∧
    (aliveHandler [] emptyRW).status = some 200 :=
  ⟨rfl, C6_probe_kind_filtering.2.1 [] .Readiness rfl,
    C6_probe_kind_filtering.2.2.1 [] rfl, C6_probe_kind_filtering.2.2.2.1 [] rfl⟩

/-- C7: serializing any value of the JSON value domain as WriteJSON does
(encoder output plus trailing newline) and decoding the body back as
ReadJSON does yields a success status, no error, and an equal value; and
the body WriteJSON writes is exactly that serialization. -/
theorem C7_json_roundtrip (v : JVal) :
    readJSONBody (writeJSONBody v) = ((200, none), some v) ∧
    (WriteJSON emptyRW 200 v).body = String.mk (writeJSONBody v) :=
  ⟨readJSON_roundtrip v, rfl⟩

/-- C8: the request-logging middleware never changes the response
produced by the wrapped handler and appends exactly one log line after
the handler returns, at error severity when the observed status is at
least 500 and info severity otherwise. -/
theorem C8_requestLogger_single_line (next : Handler) (r : ReqCtx) (st : ServerState) :
    (RequestLogger next r st).writer = (next r st).writer ∧
    (RequestLogger next r st).logs = (next r st).logs ++
      [{ level := if 500 ≤ wwStatus (next r st).writer then LogLevel.error else LogLevel.info
         message := "request handled: " ++ r.method ++ " " ++ r.path
         code := wwStatus (next r st).writer
         query := r.rawQuery }] := ⟨rfl, rfl⟩

/-- C9: every option constructible from the five With* constructors
returns a successful (nil-error) result on every config, so the fatal
branch of RunHttpServer's option-application loop is unreachable and the
loop always threads the config through the whole supplied sequence. -/
theorem C9_options_always_ok :
    (∀ (o : Opt) (c : config), o.apply c = .ok (applyOk o c)) ∧
    (∀ (opts : List Opt) (c : config),
      applyOptions opts c = .ok (opts.foldl (fun cc o => applyOk o cc) c)) :=
  ⟨apply_ok, applyOptions_ok⟩

/-- C10: RunHttpServer's construction phase is independent of the
allowed-hosts setting: two option sequences that differ only in the
values passed to WithAllowedHosts produce identical routers, middleware
chains and servers, because the allowedHosts field is stored but never
read. -/
theorem C10_allowedHosts_independence (opts1 opts2 : List Opt)
    (hf : List.Forall₂ OptSim opts1 opts2) :
    RunHttpServerBuild opts1 = RunHttpServerBuild opts2 := by
  rw [RunHttpServerBuild, RunHttpServerBuild, applyOptions_ok, applyOptions_ok]
  exact congrArg Except.ok
    (buildServer_congr _ _ (optsSim_fold opts1 opts2 hf initialConfig initialConfig rfl))

/-- Witness for C10: two singleton sequences differing only in the host
list build the same server. -/
theorem C10_allowedHosts_independence_witness :
    List.Forall₂ OptSim [Opt.withAllowedHosts ["a.example"]]
      [Opt.withAllowedHosts ["b.example"]] ∧
    RunHttpServerBuild [Opt.withAllowedHosts ["a.example"]] =
      RunHttpServerBuild [Opt.withAllowedHosts ["b.example"]] :=
  ⟨List.Forall₂.cons (OptSim.hosts _ _) List.Forall₂.nil,
   C10_allowedHosts_independence _ _
     (List.Forall₂.cons (OptSim.hosts _ _) List.Forall₂.nil)⟩
